import Mathlib

set_option linter.unusedVariables false

/-! Shallow embedding of the filtered tree walker in `src/lib/utils.js`
(`shouldIgnore`, `getAllFiles`) and of the markdown tree renderer in
`src/lib/markdown-generator.js` (`generateTree`, `getDescription`).

Filesystem reads are modelled by an `FSEntry` tree recording, for each node,
the outcome the corresponding `fs` call would produce at visit time; thrown
JavaScript exceptions are modelled by `Except.error`. -/

namespace ProjectMapper

/-- The `config.ignore` object: literal directory names, literal file names,
and glob-like pattern strings. -/
structure IgnoreConfig where
  directories : List String
  files : List String
  patterns : List String
deriving Repr, DecidableEq

/-- The slice of the configuration object that the walker and the tree
renderer read. Description tables are association lists in the key order
`Object.entries` yields. -/
structure Config where
  ignore : IgnoreConfig
  maxDepth : Nat
  includeDescriptions : Bool
  directoryDescriptions : List (String × String)
  filePatternDescriptions : List (String × String)
deriving Repr, DecidableEq

/-- A model filesystem subtree as `fs.readdir(..., { withFileTypes: true })`
exposes it. A file carries the outcome of `fs.stat` on it (`none` when stat
throws, `some size` otherwise); a directory carries whether reading its
children succeeds (`readOk = false` when `fs.readdir` on it throws) and its
children in the order `readdir` lists them. -/
inductive FSEntry where
  | file (name : String) (stat : Option Nat)
  | dir (name : String) (readOk : Bool) (children : List FSEntry)

def FSEntry.name : FSEntry → String
  | .file n _ => n
  | .dir n _ _ => n

def FSEntry.isDirectory : FSEntry → Bool
  | .file _ _ => false
  | .dir _ _ _ => true

/-- The walker's output unit: the object `getAllFiles` pushes per file, with
`stats` reduced to the byte size, the only field consumers read. -/
structure FileRecord where
  path : String
  relativePath : String
  size : Nat
deriving Repr, DecidableEq

/-- `path.join(relativePath, name)` for the shapes the walker produces:
joining with the empty relative path yields the bare name, otherwise the
segments are joined by a separator. -/
def joinRel (rel name : String) : String :=
  if rel = "" then name else rel ++ "/" ++ name

/-- `path.join(dirPath, name)` for an absolute `dirPath` with no trailing
separator. -/
def joinPath (p name : String) : String := p ++ "/" ++ name

/-- Matching of the anchored regular expression `^p$` that `shouldIgnore`
builds from an ignore pattern by escaping `.` and replacing `*` with `.*`,
modelled for patterns whose remaining characters are literal (no further
regex metacharacters): `*` matches any substring, every other character
matches itself, and the match must cover the whole string. -/
def globMatchAux : List Char → List Char → Bool
  | [], s => s.isEmpty
  | p :: ps, s =>
    if p = '*' then
      globMatchAux ps s ||
        (match s with
         | [] => false
         | _ :: s' => globMatchAux (p :: ps) s')
    else
      match s with
      | [] => false
      | c :: s' => p == c && globMatchAux ps s'
termination_by ps s => ps.length + s.length

def globMatch (pattern s : String) : Bool :=
  globMatchAux pattern.toList s.toList

/-- Syntactic validity of the JavaScript regular expression `new RegExp`
builds from a pattern string (for ignore patterns, after the `.`/`*`
rewriting, which does not change bracket structure). Modelled for the
fragment exercised by this code: the pattern is valid when its groups
`( )` and character classes `[ ]` are balanced. -/
def regexValidAux : List Char → Nat → Bool → Bool
  | [], depth, inClass => depth == 0 && !inClass
  | c :: cs, depth, inClass =>
    if inClass then regexValidAux cs depth (c != ']')
    else if c == '(' then regexValidAux cs (depth + 1) false
    else if c == ')' then decide (depth ≠ 0) && regexValidAux cs (depth - 1) false
    else if c == '[' then regexValidAux cs depth true
    else regexValidAux cs depth false

def regexValid (pattern : String) : Bool := regexValidAux pattern.toList 0 false

/-- The `config.ignore.patterns.some(...)` call in `shouldIgnore`: patterns
are tried in order; constructing the regex for a malformed pattern throws
(there is no try/catch in `shouldIgnore`), and a well-formed pattern is
tested against the bare name and against the relative path. -/
def somePatternsE : List String → String → String → Except String Bool
  | [], _, _ => .ok false
  | p :: ps, name, relativePath =>
    if regexValid p then
      if globMatch p name || globMatch p relativePath then .ok true
      else somePatternsE ps name relativePath
    else .error ("SyntaxError: invalid regular expression: " ++ p)

/-- `shouldIgnore(name, isDirectory, relativePath, config)` from
`src/lib/utils.js`, with the exception behaviour of `new RegExp` explicit in
`Except`: literal membership in the directory or file name set first, then
the pattern scan. -/
def shouldIgnoreE (name : String) (isDirectory : Bool) (relativePath : String)
    (config : Config) : Except String Bool :=
  let patterns :=
    if isDirectory then config.ignore.directories else config.ignore.files
  if patterns.contains name then .ok true
  else somePatternsE config.ignore.patterns name relativePath

/-- The value `shouldIgnore` computes when every pattern is well-formed (no
exception path taken). -/
def shouldIgnore (name : String) (isDirectory : Bool) (relativePath : String)
    (config : Config) : Bool :=
  let patterns :=
    if isDirectory then config.ignore.directories else config.ignore.files
  patterns.contains name ||
    config.ignore.patterns.any fun p => globMatch p name || globMatch p relativePath

mutual
/-- `getAllFiles(rootDir, config, currentDepth, relativePath)` from
`src/lib/utils.js`, over a model directory whose `readdir` outcome is
`readOk` / `entries`. The depth guard precedes the `readdir` call; a failing
`readdir` throws; otherwise the body loops over the entries in listing
order. No exception is caught anywhere in the function. -/
def getAllFiles (rootDir : String) (config : Config) (currentDepth : Nat)
    (relativePath : String) (readOk : Bool) (entries : List FSEntry) :
    Except String (List FileRecord) :=
  if currentDepth > config.maxDepth then .ok []
  else if readOk then
    getAllFilesLoop rootDir config currentDepth relativePath entries
  else .error ("ENOENT: readdir " ++ rootDir)
termination_by (sizeOf entries, 1)

/-- The `for (const entry of entries)` loop of `getAllFiles`: ignore check
(which may throw), then recursion for directories or `fs.stat` for files,
concatenating sub-results and pushing file records in listing order. -/
def getAllFilesLoop (rootDir : String) (config : Config) (currentDepth : Nat)
    (relativePath : String) : List FSEntry → Except String (List FileRecord)
  | [] => .ok []
  | entry :: rest => do
    let entryRelativePath := joinRel relativePath entry.name
    let ign ← shouldIgnoreE entry.name entry.isDirectory entryRelativePath config
    if ign then
      getAllFilesLoop rootDir config currentDepth relativePath rest
    else
      match entry with
      | .dir n ok children => do
        let subFiles ← getAllFiles (joinPath rootDir n) config (currentDepth + 1)
          entryRelativePath ok children
        let results ← getAllFilesLoop rootDir config currentDepth relativePath rest
        .ok (subFiles ++ results)
      | .file n stat =>
        match stat with
        | none => .error ("EACCES: stat " ++ joinPath rootDir n)
        | some size => do
          let results ← getAllFilesLoop rootDir config currentDepth relativePath rest
          .ok ({ path := joinPath rootDir n,
                 relativePath := entryRelativePath, size := size } :: results)
termination_by l => (sizeOf l, 0)
end

/-- Literal prefix test on character lists. -/
def charsPrefix : List Char → List Char → Bool
  | [], _ => true
  | _ :: _, [] => false
  | a :: as, b :: bs => a == b && charsPrefix as bs

/-- Matching of the unanchored regular expression `new RegExp(pattern)` that
`getDescription` builds from a description key, modelled for keys made of
literal characters: `test` succeeds exactly when the key occurs as a
substring of the candidate. -/
def regexSearchAux (p : List Char) : List Char → Bool
  | [] => charsPrefix p []
  | c :: s' => charsPrefix p (c :: s') || regexSearchAux p s'

def regexSearch (pattern s : String) : Bool :=
  regexSearchAux pattern.toList s.toList

/-- `config.directoryDescriptions[relativePath]` as an association-list
lookup in key order. -/
def lookupDirDesc : List (String × String) → String → Option String
  | [], _ => none
  | (k, v) :: rest, rel => if k = rel then some v else lookupDirDesc rest rel

/-- The `for (const [pattern, description] of Object.entries(...))` loop of
`getDescription`: a key whose regex does not compile is skipped by the
`try`/`catch` (only a warning is logged), and the first compiling key whose
regex matches the relative path wins. -/
def findFileDesc : List (String × String) → String → Option String
  | [], _ => none
  | (pattern, description) :: rest, rel =>
    if regexValid pattern then
      if regexSearch pattern rel then some description
      else findFileDesc rest rel
    else findFileDesc rest rel

/-- `getDescription(relativePath, isDirectory, config)` from
`src/lib/markdown-generator.js`. A directory description that is the empty
string is falsy in the source's guard and therefore not returned. -/
def getDescription (relativePath : String) (isDirectory : Bool)
    (config : Config) : Option String :=
  if isDirectory then
    match lookupDirDesc config.directoryDescriptions relativePath with
    | some v => if v = "" then none else some v
    | none => none
  else findFileDesc config.filePatternDescriptions relativePath

/-- Code-point comparison of names; models `localeCompare(...) <= 0` for the
lower-case ASCII names exercised here. -/
def charsLE : List Char → List Char → Bool
  | [], _ => true
  | _ :: _, [] => false
  | a :: as, b :: bs => if a == b then charsLE as bs else decide (a.toNat < b.toNat)

def nameLE (a b : String) : Bool := charsLE a.toList b.toList

/-- The comparator passed to `entries.sort` in `generateTree`: directories
sort before files, same-kind entries by name; `entryLE a b` says the
comparator allows `a` to stay before `b` (it is not positive on `(a, b)`). -/
def entryLE (a b : FSEntry) : Bool :=
  if a.isDirectory && !b.isDirectory then true
  else if !a.isDirectory && b.isDirectory then false
  else nameLE a.name b.name

/-- Stable insertion for the sort: a new element goes after every
already-placed element that may stay before it. -/
def insertEntry (e : FSEntry) : List FSEntry → List FSEntry
  | [] => [e]
  | x :: xs => if entryLE x e then x :: insertEntry e xs else e :: x :: xs

/-- The stable sort `entries.sort((a, b) => ...)` performs in `generateTree`
(`Array.prototype.sort` is stable, and the comparator is a total preorder,
so the result is the unique stable sorted permutation). -/
def sortEntries (l : List FSEntry) : List FSEntry :=
  l.foldl (fun acc e => insertEntry e acc) []

theorem sizeOf_insertEntry (e : FSEntry) (l : List FSEntry) :
    sizeOf (insertEntry e l) = 1 + sizeOf e + sizeOf l := by
  induction l with
  | nil => simp [insertEntry]
  | cons x xs ih =>
    simp only [insertEntry]
    split
    · simp [ih]
      omega
    · simp

theorem sizeOf_sortEntries_aux (l acc : List FSEntry) :
    sizeOf (l.foldl (fun a e => insertEntry e a) acc) + 1 = sizeOf l + sizeOf acc := by
  induction l generalizing acc with
  | nil => simp; omega
  | cons x xs ih =>
    simp only [List.foldl_cons]
    rw [ih, sizeOf_insertEntry]
    simp; omega

theorem sizeOf_sortEntries (l : List FSEntry) :
    sizeOf (sortEntries l) = sizeOf l := by
  have h := sizeOf_sortEntries_aux l []
  simp only [sortEntries]
  simp at h
  omega

mutual
/-- `generateTree(dirPath, config, depth, prefix, relativePath)` from
`src/lib/markdown-generator.js`, over a model directory: depth guard, then
`readdir` (throwing when it fails), then the stable directories-first,
then-by-name sort, then the rendering loop over the sorted entries. -/
def generateTree (dirPath : String) (config : Config) (depth : Nat)
    (pre relativePath : String) (readOk : Bool) (entries : List FSEntry) :
    Except String String :=
  if depth > config.maxDepth then .ok ""
  else if readOk then
    generateTreeLoop dirPath config depth pre relativePath (sortEntries entries)
  else .error ("ENOENT: readdir " ++ dirPath)
termination_by (sizeOf entries, 1)
decreasing_by
  rw [sizeOf_sortEntries]
  exact Prod.Lex.right _ (by omega)

/-- The `for (let i = 0; ...)` loop of `generateTree`. `isLast` is the
source's `i === entries.length - 1`, i.e. whether the entry is last in the
sorted listing — computed before the ignore filter. An ignored entry is
skipped; a rendered entry contributes its connector line, and a rendered
directory recurses under the continuation child prefix. -/
def generateTreeLoop (dirPath : String) (config : Config) (depth : Nat)
    (pre relativePath : String) : List FSEntry → Except String String
  | [] => .ok ""
  | entry :: rest => do
    let isLast := rest.isEmpty
    let entryRelativePath := joinRel relativePath entry.name
    let ign ← shouldIgnoreE entry.name entry.isDirectory entryRelativePath config
    if ign then
      generateTreeLoop dirPath config depth pre relativePath rest
    else
      let linePre := pre ++ (if isLast then "└── " else "├── ")
      let childPre := pre ++ (if isLast then "    " else "│   ")
      let description :=
        if config.includeDescriptions then
          match getDescription entryRelativePath entry.isDirectory config with
          | some desc => if desc = "" then "" else " # " ++ desc
          | none => ""
        else ""
      let line := linePre ++ entry.name ++ description ++ "\n"
      match entry with
      | .dir n ok children => do
        let sub ← generateTree (joinPath dirPath n) config (depth + 1)
          childPre entryRelativePath ok children
        let r ← generateTreeLoop dirPath config depth pre relativePath rest
        .ok (line ++ sub ++ r)
      | .file _ _ => do
        let r ← generateTreeLoop dirPath config depth pre relativePath rest
        .ok (line ++ r)
termination_by l => (sizeOf l, 0)
end

/-- Modelled from the spec ("If `maxDepth = 0`, only files directly inside
the root are returned; no subdirectory is descended into"): the non-ignored
files directly inside the root in listing order, each stat-ed; directory
entries contribute nothing and their contents are never consulted. -/
def rootOnlyFiles (rootDir : String) (config : Config) :
    List FSEntry → Except String (List FileRecord)
  | [] => .ok []
  | .dir _ _ _ :: rest => rootOnlyFiles rootDir config rest
  | .file n stat :: rest =>
    if shouldIgnore n false n config then rootOnlyFiles rootDir config rest
    else
      match stat with
      | none => .error ("EACCES: stat " ++ joinPath rootDir n)
      | some size => do
        let results ← rootOnlyFiles rootDir config rest
        .ok ({ path := joinPath rootDir n, relativePath := n, size := size } :: results)

/-- The configuration with the malformed file-description keys removed —
the keys `getDescription`'s `try`/`catch` skips. -/
def filterValidDescs (config : Config) : Config :=
  { config with
    filePatternDescriptions :=
      config.filePatternDescriptions.filter fun kv => regexValid kv.fst }

/-! Concrete inputs used by the per-claim witnesses and counterexamples. -/

/-- Ignore policy of the spec's example scenario: directory `node_modules`
excluded, depth bound 8. -/
def cfgScenario : Config :=
  { ignore := { directories := ["node_modules"], files := [], patterns := [] },
    maxDepth := 8, includeDescriptions := false,
    directoryDescriptions := [], filePatternDescriptions := [] }

/-- The scenario tree with `readdir` listing `src` first. -/
def fsScenarioDirsFirst : List FSEntry :=
  [ .dir "src" true [ .file "index.js" (some 10), .file "util.js" (some 20) ],
    .dir "node_modules" true [ .dir "pkg" true [ .file "index.js" (some 5) ] ],
    .file ".env.example" (some 3) ]

/-- The same scenario tree with `readdir` listing the entries in plain
alphabetical order, `.env.example` first. -/
def fsScenarioAlpha : List FSEntry :=
  [ .file ".env.example" (some 3),
    .dir "node_modules" true [ .dir "pkg" true [ .file "index.js" (some 5) ] ],
    .dir "src" true [ .file "index.js" (some 10), .file "util.js" (some 20) ] ]

/-- A configuration with no ignore rules and a generous depth bound. -/
def cfgPlain : Config :=
  { ignore := { directories := [], files := [], patterns := [] },
    maxDepth := 8, includeDescriptions := false,
    directoryDescriptions := [], filePatternDescriptions := [] }

/-- A root whose middle entry is a subdirectory that cannot be listed,
between two readable files. -/
def fsBadSubdir : List FSEntry :=
  [ .file "a.txt" (some 1),
    .dir "bad" false [],
    .file "c.txt" (some 2) ]

/-- A root whose middle entry is a file whose metadata cannot be read,
between two readable files. -/
def fsBadStat : List FSEntry :=
  [ .file "a.txt" (some 1),
    .file "b.bin" none,
    .file "c.txt" (some 2) ]

/-- An ignore policy whose single pattern is an unclosed parenthesis. -/
def cfgBadPattern : Config :=
  { ignore := { directories := [], files := [], patterns := ["("] },
    maxDepth := 8, includeDescriptions := false,
    directoryDescriptions := [], filePatternDescriptions := [] }

/-- An ignore policy that excludes the directory name `node_modules` only. -/
def cfgDirIgnore : Config :=
  { ignore := { directories := ["node_modules"], files := [], patterns := [] },
    maxDepth := 8, includeDescriptions := false,
    directoryDescriptions := [], filePatternDescriptions := [] }

/-- A root containing a regular FILE named like the ignored directory. -/
def fsFileNamedNodeModules : List FSEntry :=
  [ .file "node_modules" (some 7) ]

/-- An ignore policy with literal names and a valid glob pattern, exercised
by the invariant witnesses. -/
def cfgInv : Config :=
  { ignore := { directories := [".git"], files := [".DS_Store"], patterns := ["*.log"] },
    maxDepth := 8, includeDescriptions := false,
    directoryDescriptions := [], filePatternDescriptions := [] }

/-- A two-level tree with ignored and kept entries at both levels. -/
def fsInv : List FSEntry :=
  [ .dir "src" true
      [ .file "app.js" (some 4), .file "debug.log" (some 5), .file ".DS_Store" (some 6) ],
    .dir ".git" true [ .file "HEAD" (some 1) ],
    .file "readme.md" (some 2) ]

/-- A depth-zero configuration with a literal file ignore and a glob
pattern. -/
def cfgDepth0 : Config :=
  { ignore := { directories := [], files := [".DS_Store"], patterns := ["*.log"] },
    maxDepth := 0, includeDescriptions := false,
    directoryDescriptions := [], filePatternDescriptions := [] }

/-- A root with files to keep and to ignore plus a subdirectory that could
not even be listed — at depth 0 it must not matter. -/
def fsDepth0 : List FSEntry :=
  [ .file "a.txt" (some 1),
    .dir "sub" false [ .file "x" none ],
    .file "b.log" (some 2),
    .file ".DS_Store" (some 3) ]

/-- An ignore policy whose file set contains `z.log`. -/
def cfgIgnoreZLog : Config :=
  { ignore := { directories := [], files := ["z.log"], patterns := [] },
    maxDepth := 8, includeDescriptions := false,
    directoryDescriptions := [], filePatternDescriptions := [] }

/-- A root whose alphabetically last entry is the ignored file `z.log`. -/
def fsLastIgnored : List FSEntry :=
  [ .file "a.txt" (some 1), .file "z.log" (some 2) ]

/-- The claim's tree-mode example: directory `a` and file `b.txt`. -/
def fsTreeExample : List FSEntry :=
  [ .dir "a" true [], .file "b.txt" (some 1) ]

/-- A description table whose first key is malformed and whose second key is
a literal that matches `b.txt`. -/
def cfgDescs : Config :=
  { ignore := { directories := [], files := [], patterns := [] },
    maxDepth := 8, includeDescriptions := true,
    directoryDescriptions := [("a", "the a directory")],
    filePatternDescriptions := [("(", "broken"), ("b.txt", "the b file")] }

/-- An ignore policy whose single pattern is the star-free string `log`. -/
def cfgPatternLog : Config :=
  { ignore := { directories := [], files := [], patterns := ["log"] },
    maxDepth := 8, includeDescriptions := false,
    directoryDescriptions := [], filePatternDescriptions := [] }

/-- A nested tree for the path/relativePath correspondence witness. -/
def fsNested : List FSEntry :=
  [ .dir "src" true
      [ .dir "lib" true [ .file "utils.js" (some 9) ],
        .file "index.js" (some 8) ],
    .file "package.json" (some 7) ]

/-- The per-record invariant behind C5: the record's relative path is the
chain of the directory names traversed to reach it followed by its file
name, where no traversed directory name is in the ignored-directory set or
matches a pattern, the file name is not in the ignored-file set and matches
no pattern, and the full relative path matches no pattern. -/
def RecordSegmentsOk (config : Config) (rel : String) (r : FileRecord) : Prop :=
  ∃ dirs fname,
    r.relativePath = List.foldl joinRel rel (dirs ++ [fname]) ∧
    (∀ s ∈ dirs, s ∉ config.ignore.directories ∧
      ∀ pat ∈ config.ignore.patterns, globMatch pat s = false) ∧
    fname ∉ config.ignore.files ∧
    (∀ pat ∈ config.ignore.patterns, globMatch pat fname = false) ∧
    (∀ pat ∈ config.ignore.patterns, globMatch pat r.relativePath = false)

mutual
/-- Well-formedness of a model tree: every entry name is nonempty, as
`readdir` guarantees for real directory entries. -/
def entryNamesOk : FSEntry → Bool
  | .file n _ => n != ""
  | .dir n _ cs => n != "" && entriesNamesOk cs

def entriesNamesOk : List FSEntry → Bool
  | [] => true
  | e :: es => entryNamesOk e && entriesNamesOk es
end

/-! ### General lemmas about the embedded code -/

theorem joinRel_nil (n : String) : joinRel "" n = n := by simp [joinRel]

theorem okBind {α β : Type} (a : α) (f : α → Except String β) :
    (Except.ok a : Except String α) >>= f = f a := rfl

theorem errorBind {α β : Type} (e : String) (f : α → Except String β) :
    (Except.error e : Except String α) >>= f = Except.error e := rfl

theorem bindOkId {α : Type} (x : Except String α) : x >>= Except.ok = x := by
  cases x <;> rfl

/-- When the pattern scan reports "no pattern matched", every pattern was
well-formed and matched neither the bare name nor the relative path. -/
theorem somePatternsE_ok_false {ps : List String} {name rel : String}
    (h : somePatternsE ps name rel = .ok false) :
    ∀ pat ∈ ps, regexValid pat = true ∧
      globMatch pat name = false ∧ globMatch pat rel = false := by
  induction ps with
  | nil => intro pat hp; cases hp
  | cons p ps ih =>
    intro pat hp
    simp only [somePatternsE] at h
    by_cases hv : regexValid p = true
    · rw [if_pos hv] at h
      by_cases hm : (globMatch p name || globMatch p rel) = true
      · rw [if_pos hm] at h
        cases h
      · rw [if_neg hm] at h
        cases hp with
        | head =>
          have hm2 : (globMatch p name || globMatch p rel) = false := by
            simpa using hm
          exact ⟨hv, (Bool.or_eq_false_iff.mp hm2).1, (Bool.or_eq_false_iff.mp hm2).2⟩
        | tail _ hmem => exact ih h pat hmem
    · rw [if_neg hv] at h
      cases h

/-- On a configuration whose patterns are all well-formed, the pattern scan
never throws and computes the disjunction of the individual tests. -/
theorem somePatternsE_valid {ps : List String} {name rel : String}
    (hv : ∀ pat ∈ ps, regexValid pat = true) :
    somePatternsE ps name rel =
      .ok (ps.any fun p => globMatch p name || globMatch p rel) := by
  induction ps with
  | nil => simp [somePatternsE]
  | cons p ps ih =>
    have hp : regexValid p = true := hv p (by simp)
    have hrest : ∀ pat ∈ ps, regexValid pat = true := fun pat hm => hv pat (by simp [hm])
    simp only [somePatternsE, if_pos hp, List.any_cons]
    by_cases hm : (globMatch p name || globMatch p rel) = true
    · simp [hm]
    · simp only [if_neg hm, ih hrest]
      simp [Bool.or_eq_false_iff.mp (eq_false_of_ne_true hm)]

/-- On a configuration whose patterns are all well-formed, `shouldIgnore`'s
exception path is dead and the check computes its total value. -/
theorem shouldIgnoreE_valid {config : Config}
    (hv : ∀ pat ∈ config.ignore.patterns, regexValid pat = true)
    (name : String) (isDir : Bool) (rel : String) :
    shouldIgnoreE name isDir rel config = .ok (shouldIgnore name isDir rel config) := by
  by_cases hc : name ∈ (if isDir then config.ignore.directories else config.ignore.files)
  · simp [shouldIgnoreE, shouldIgnore, hc]
  · simp [shouldIgnoreE, shouldIgnore, hc, somePatternsE_valid hv]

/-- The walker's loop is a homomorphism for listing concatenation: walking
`l₁ ++ l₂` is walking `l₁`, then `l₂`, and concatenating the record lists —
the order of records is exactly the order of the listing, with each
subtree's records inlined at its directory's position. -/
theorem getAllFilesLoop_append (rootDir : String) (config : Config) (d : Nat)
    (rel : String) (l₁ l₂ : List FSEntry) :
    getAllFilesLoop rootDir config d rel (l₁ ++ l₂) =
      (do
        let a ← getAllFilesLoop rootDir config d rel l₁
        let b ← getAllFilesLoop rootDir config d rel l₂
        Except.ok (a ++ b)) := by
  induction l₁ with
  | nil =>
    simp only [List.nil_append, getAllFilesLoop, okBind, List.nil_append]
    exact (bindOkId _).symm
  | cons e rest ih =>
    cases e with
    | file n stat =>
      cases stat with
      | none =>
        simp only [List.cons_append, getAllFilesLoop, FSEntry.name, FSEntry.isDirectory]
        cases hig : shouldIgnoreE n false (joinRel rel n) config with
        | error msg => simp [errorBind]
        | ok b =>
          cases b with
          | true => simpa [okBind] using ih
          | false => simp [okBind, errorBind]
      | some size =>
        simp only [List.cons_append, getAllFilesLoop, FSEntry.name, FSEntry.isDirectory]
        cases hig : shouldIgnoreE n false (joinRel rel n) config with
        | error msg => simp [errorBind]
        | ok b =>
          cases b with
          | true => simpa [okBind] using ih
          | false =>
            cases hrest : getAllFilesLoop rootDir config d rel rest with
            | error msg => simp [okBind, errorBind, ih, hrest]
            | ok a => simp [okBind, ih, hrest]
    | dir n ok children =>
      simp only [List.cons_append, getAllFilesLoop, FSEntry.name, FSEntry.isDirectory]
      cases hig : shouldIgnoreE n true (joinRel rel n) config with
      | error msg => simp [errorBind]
      | ok b =>
        cases b with
        | true => simpa [okBind] using ih
        | false =>
          cases hsub : getAllFiles (joinPath rootDir n) config (d + 1)
              (joinRel rel n) ok children with
          | error msg => simp [okBind, errorBind, hsub]
          | ok sub =>
            cases hrest : getAllFilesLoop rootDir config d rel rest with
            | error msg => simp [okBind, errorBind, ih, hrest, hsub]
            | ok a => simp [okBind, ih, hrest, hsub]

/-! ### C1 — ordering of the flat-list walk -/

/-- C1 (counterexample): on the spec's own scenario with `readdir` listing
the root alphabetically, the flat-list walk returns `.env.example` first —
not the directories-first, lexicographic order the claim asserts
(`getAllFiles` never sorts its listing). -/
theorem c1_flat_order_counterexample :
    getAllFiles "/r" cfgScenario 0 "" true fsScenarioAlpha =
      .ok [ { path := "/r/.env.example", relativePath := ".env.example", size := 3 },
            { path := "/r/src/index.js", relativePath := "src/index.js", size := 10 },
            { path := "/r/src/util.js", relativePath := "src/util.js", size := 20 } ] ∧
    (([".env.example", "src/index.js", "src/util.js"] ==
      ["src/index.js", "src/util.js", ".env.example"]) = false) := by
  refine ⟨?_, by decide⟩
  simp [getAllFiles, getAllFilesLoop, shouldIgnoreE, somePatternsE, cfgScenario,
    fsScenarioAlpha, joinRel, joinPath, FSEntry.name, FSEntry.isDirectory, okBind, errorBind]

/-- C1 (amended): the flat-list walk returns records in depth-first order
following the order in which `readdir` lists each directory — it performs no
sorting of its own: walking a concatenated listing is the concatenation of
the walks, and on the spec's scenario it returns exactly `src/index.js`,
`src/util.js`, `.env.example` when `readdir` happens to list `src` before
`node_modules` before `.env.example`. -/
theorem c1_flat_order_amended :
    (∀ (rootDir : String) (config : Config) (d : Nat) (rel : String)
        (l₁ l₂ : List FSEntry),
      getAllFilesLoop rootDir config d rel (l₁ ++ l₂) =
        (do
          let a ← getAllFilesLoop rootDir config d rel l₁
          let b ← getAllFilesLoop rootDir config d rel l₂
          Except.ok (a ++ b))) ∧
    getAllFiles "/r" cfgScenario 0 "" true fsScenarioDirsFirst =
      .ok [ { path := "/r/src/index.js", relativePath := "src/index.js", size := 10 },
            { path := "/r/src/util.js", relativePath := "src/util.js", size := 20 },
            { path := "/r/.env.example", relativePath := ".env.example", size := 3 } ] := by
  refine ⟨getAllFilesLoop_append, ?_⟩
  simp [getAllFiles, getAllFilesLoop, shouldIgnoreE, somePatternsE, cfgScenario,
    fsScenarioDirsFirst, joinRel, joinPath, FSEntry.name, FSEntry.isDirectory, okBind, errorBind]

/-! ### C2 — failure while listing a subdirectory -/

/-- C2 (counterexample): when the subdirectory `bad` cannot be listed, the
walk does not report the sibling records `a.txt`/`c.txt` alongside a
partial-failure condition — it aborts with the error and delivers no
records at all. -/
theorem c2_subtree_failure_counterexample :
    getAllFiles "/r" cfgPlain 0 "" true fsBadSubdir =
      .error ("ENOENT: readdir /r/bad") := by
  simp [getAllFiles, getAllFilesLoop, shouldIgnoreE, somePatternsE, cfgPlain,
    fsBadSubdir, joinRel, joinPath, FSEntry.name, FSEntry.isDirectory, okBind, errorBind]

/-- C2 (amended): a failure to list a non-root directory's children is not
contained to that subtree: whenever the walk reaches such a directory (the
entries before it walked successfully, the directory not ignored, the depth
bound not yet exceeded), the whole call aborts with that error and delivers
none of the previously gathered records. -/
theorem c2_subtree_failure_amended
    (rootDir : String) (config : Config) (rel : String)
    (pre post : List FSEntry) (dname : String) (children : List FSEntry)
    (rs : List FileRecord)
    (hpre : getAllFilesLoop rootDir config 0 rel pre = .ok rs)
    (hig : shouldIgnoreE dname true (joinRel rel dname) config = .ok false)
    (hd : 0 < config.maxDepth) :
    getAllFiles rootDir config 0 rel true
        (pre ++ FSEntry.dir dname false children :: post) =
      .error ("ENOENT: readdir " ++ joinPath rootDir dname) := by
  have hnd : ¬ (0 > config.maxDepth) := by omega
  have hnd1 : ¬ (0 + 1 > config.maxDepth) := by omega
  simp only [getAllFiles, if_neg hnd, if_pos rfl]
  rw [getAllFilesLoop_append, hpre, okBind]
  simp only [getAllFilesLoop, FSEntry.name, FSEntry.isDirectory, hig, okBind,
    Bool.false_eq_true, if_false, if_neg hnd1, Bool.false_eq_true]
  have hne : config.maxDepth ≠ 0 := by omega
  simp [getAllFiles, hne, errorBind]

/-- C2 (witness). -/
theorem c2_subtree_failure_witness :
    getAllFiles "/r" cfgPlain 0 "" true
        ([FSEntry.file "a.txt" (some 1)] ++
          FSEntry.dir "bad" false [] :: [FSEntry.file "c.txt" (some 2)]) =
      .error ("ENOENT: readdir " ++ joinPath "/r" "bad") :=
  c2_subtree_failure_amended "/r" cfgPlain "" [FSEntry.file "a.txt" (some 1)]
    [FSEntry.file "c.txt" (some 2)] "bad" []
    [{ path := joinPath "/r" "a.txt", relativePath := joinRel "" "a.txt", size := 1 }]
    (by simp [getAllFilesLoop, shouldIgnoreE, somePatternsE, cfgPlain,
      FSEntry.name, FSEntry.isDirectory, okBind])
    (by simp [shouldIgnoreE, somePatternsE, cfgPlain])
    (by simp [cfgPlain])

/-! ### C3 — failure while reading one file's metadata -/

/-- C3 (counterexample): when `fs.stat` fails on `b.bin`, the walker does
not skip that entry and continue — it aborts the whole walk with the error,
and neither `a.txt` nor `c.txt` is returned. -/
theorem c3_stat_failure_counterexample :
    getAllFiles "/r" cfgPlain 0 "" true fsBadStat =
      .error ("EACCES: stat /r/b.bin") := by
  simp [getAllFiles, getAllFilesLoop, shouldIgnoreE, somePatternsE, cfgPlain,
    fsBadStat, joinRel, joinPath, FSEntry.name, FSEntry.isDirectory, okBind, errorBind]

/-- C3 (amended): a failure to read one file's metadata is fatal to the
whole walk: whenever the walk reaches such a file (the entries before it
walked successfully, the file not ignored), the call aborts with that error
and no other file of the subtree is processed or returned. -/
theorem c3_stat_failure_amended
    (rootDir : String) (config : Config) (rel : String)
    (pre post : List FSEntry) (fname : String)
    (rs : List FileRecord)
    (hpre : getAllFilesLoop rootDir config 0 rel pre = .ok rs)
    (hig : shouldIgnoreE fname false (joinRel rel fname) config = .ok false)
    (hd : ¬ (0 > config.maxDepth)) :
    getAllFiles rootDir config 0 rel true
        (pre ++ FSEntry.file fname none :: post) =
      .error ("EACCES: stat " ++ joinPath rootDir fname) := by
  simp only [getAllFiles, if_neg hd, if_pos rfl]
  rw [getAllFilesLoop_append, hpre, okBind]
  simp only [getAllFilesLoop, FSEntry.name, FSEntry.isDirectory, hig, okBind,
    Bool.false_eq_true, if_false]
  simp [errorBind]

/-- C3 (witness). -/
theorem c3_stat_failure_witness :
    getAllFiles "/r" cfgPlain 0 "" true
        ([FSEntry.file "a.txt" (some 1)] ++
          FSEntry.file "b.bin" none :: [FSEntry.file "c.txt" (some 2)]) =
      .error ("EACCES: stat " ++ joinPath "/r" "b.bin") :=
  c3_stat_failure_amended "/r" cfgPlain "" [FSEntry.file "a.txt" (some 1)]
    [FSEntry.file "c.txt" (some 2)] "b.bin"
    [{ path := joinPath "/r" "a.txt", relativePath := joinRel "" "a.txt", size := 1 }]
    (by simp [getAllFilesLoop, shouldIgnoreE, somePatternsE, cfgPlain,
      FSEntry.name, FSEntry.isDirectory, okBind])
    (by simp [shouldIgnoreE, somePatternsE, cfgPlain])
    (by simp [cfgPlain])

/-! ### C4 — malformed ignore pattern -/

/-- C4 (counterexample): with the single malformed ignore pattern `(`, the
walk over a root holding one ordinary file does not skip the pattern and
complete — regex construction throws inside the ignore check and the whole
walk fails. -/
theorem c4_malformed_pattern_counterexample :
    getAllFiles "/r" cfgBadPattern 0 "" true [FSEntry.file "a.txt" (some 1)] =
      .error ("SyntaxError: invalid regular expression: (") := by
  simp [getAllFiles, getAllFilesLoop, shouldIgnoreE, somePatternsE, cfgBadPattern,
    regexValid, regexValidAux, joinRel, joinPath, FSEntry.name, FSEntry.isDirectory,
    okBind, errorBind]

/-- C4 (amended): a malformed ignore pattern is not skipped: as soon as the
ignore check on any entry not matched by the literal name sets reaches it
(here: it is the first pattern), `new RegExp` throws and the entire walk
aborts with that error. -/
theorem c4_malformed_pattern_amended
    (rootDir : String) (config : Config) (rel : String)
    (e : FSEntry) (rest : List FSEntry) (bad : String) (ps : List String)
    (hpat : config.ignore.patterns = bad :: ps)
    (hbad : regexValid bad = false)
    (hlit : ((if e.isDirectory then config.ignore.directories
        else config.ignore.files).contains e.name) = false)
    (hd : ¬ (0 > config.maxDepth)) :
    getAllFiles rootDir config 0 rel true (e :: rest) =
      .error ("SyntaxError: invalid regular expression: " ++ bad) := by
  have hsie : shouldIgnoreE e.name e.isDirectory (joinRel rel e.name) config =
      .error ("SyntaxError: invalid regular expression: " ++ bad) := by
    simp only [shouldIgnoreE, hlit, Bool.false_eq_true, if_false, hpat,
      somePatternsE, hbad, if_false]
  simp only [getAllFiles, if_neg hd, if_pos rfl]
  rw [getAllFilesLoop.eq_def]
  simp only []
  rw [hsie, errorBind]
  simp

/-- C4 (witness). -/
theorem c4_malformed_pattern_witness :
    getAllFiles "/r" cfgBadPattern 0 "" true
        (FSEntry.file "a.txt" (some 1) :: []) =
      .error ("SyntaxError: invalid regular expression: " ++ "(") :=
  c4_malformed_pattern_amended "/r" cfgBadPattern ""
    (FSEntry.file "a.txt" (some 1)) [] "(" []
    (by simp [cfgBadPattern]) (by simp [regexValid, regexValidAux])
    (by simp [cfgBadPattern, FSEntry.name, FSEntry.isDirectory])
    (by simp [cfgBadPattern])

/-! ### C5 — the ignore policy and returned relative paths -/

/-- An ignore check that returns `false` certifies that the name is not in
the applicable literal set and that no pattern matches the name or the
relative path. -/
theorem shouldIgnoreE_ok_false {name : String} {isDir : Bool} {rel : String}
    {config : Config}
    (h : shouldIgnoreE name isDir rel config = .ok false) :
    name ∉ (if isDir then config.ignore.directories else config.ignore.files) ∧
    ∀ pat ∈ config.ignore.patterns, regexValid pat = true ∧
      globMatch pat name = false ∧ globMatch pat rel = false := by
  by_cases hc : name ∈ (if isDir then config.ignore.directories else config.ignore.files)
  · exfalso
    simp [shouldIgnoreE, hc] at h
  · refine ⟨hc, somePatternsE_ok_false ?_⟩
    simpa [shouldIgnoreE, hc] using h

/-- Every record of a successful walk satisfies the segment invariant,
relative to the walk's starting relative path. -/
theorem getAllFiles_segments
    (rootDir : String) (config : Config) (d : Nat) (rel : String)
    (ro : Bool) (entries : List FSEntry) :
    ∀ rs, getAllFiles rootDir config d rel ro entries = .ok rs →
      ∀ r ∈ rs, RecordSegmentsOk config rel r := by
  refine getAllFiles.induct
    (fun rootDir config d rel ro entries =>
      ∀ rs, getAllFiles rootDir config d rel ro entries = .ok rs →
        ∀ r ∈ rs, RecordSegmentsOk config rel r)
    (fun rootDir config d rel l =>
      ∀ rs, getAllFilesLoop rootDir config d rel l = .ok rs →
        ∀ r ∈ rs, RecordSegmentsOk config rel r)
    ?_ ?_ ?_ ?_ ?_ rootDir config d rel ro entries
  · intro rootDir config d rel ro entries hd rs hrs r hr
    simp only [getAllFiles, if_pos hd, Except.ok.injEq] at hrs
    subst hrs
    cases hr
  · intro rootDir config d rel entries hd ih rs hrs r hr
    simp only [getAllFiles, if_neg hd, if_pos rfl] at hrs
    exact ih rs hrs r hr
  · intro rootDir config d rel ro entries hd hro rs hrs r hr
    rw [getAllFiles, if_neg hd, if_neg hro] at hrs
    cases hrs
  · intro rootDir config d rel rs hrs r hr
    simp only [getAllFilesLoop, Except.ok.injEq] at hrs
    subst hrs
    cases hr
  · intro rootDir config d rel entry rest entryRelativePath ih1 ihm rs hrs r hr
    cases entry with
    | file n stat =>
      cases stat with
      | none =>
        simp only [getAllFilesLoop, FSEntry.name, FSEntry.isDirectory] at hrs
        cases hig : shouldIgnoreE n false (joinRel rel n) config with
        | error msg => rw [hig, errorBind] at hrs; cases hrs
        | ok b =>
          rw [hig, okBind] at hrs
          cases b with
          | true => rw [if_pos rfl] at hrs; exact ih1 rs hrs r hr
          | false =>
            rw [if_neg (by simp)] at hrs
            cases hrs
      | some size =>
        simp only [getAllFilesLoop, FSEntry.name, FSEntry.isDirectory] at hrs
        cases hig : shouldIgnoreE n false (joinRel rel n) config with
        | error msg => rw [hig, errorBind] at hrs; cases hrs
        | ok b =>
          rw [hig, okBind] at hrs
          cases b with
          | true => rw [if_pos rfl] at hrs; exact ih1 rs hrs r hr
          | false =>
            rw [if_neg (by simp)] at hrs
            cases hrest : getAllFilesLoop rootDir config d rel rest with
            | error msg => rw [hrest, errorBind] at hrs; cases hrs
            | ok results =>
              rw [hrest, okBind] at hrs
              rcases hrs with ⟨⟩
              have hfacts := shouldIgnoreE_ok_false hig
              rcases List.mem_cons.mp hr with hhead | htail
              · subst hhead
                refine ⟨[], n, by simp, by simp, ?_, ?_, ?_⟩
                · simpa using hfacts.1
                · intro pat hp
                  exact (hfacts.2 pat hp).2.1
                · intro pat hp
                  exact (hfacts.2 pat hp).2.2
              · exact ih1 results hrest r htail
    | dir n ok children =>
      obtain ⟨ihdir, _⟩ := ihm
      simp only [getAllFilesLoop, FSEntry.name, FSEntry.isDirectory] at hrs
      cases hig : shouldIgnoreE n true (joinRel rel n) config with
      | error msg => rw [hig, errorBind] at hrs; cases hrs
      | ok b =>
        rw [hig, okBind] at hrs
        cases b with
        | true => rw [if_pos rfl] at hrs; exact ih1 rs hrs r hr
        | false =>
          rw [if_neg (by simp)] at hrs
          cases hsub : getAllFiles (joinPath rootDir n) config (d + 1)
              (joinRel rel n) ok children with
          | error msg => rw [hsub, errorBind] at hrs; cases hrs
          | ok sub =>
            rw [hsub, okBind] at hrs
            cases hrest : getAllFilesLoop rootDir config d rel rest with
            | error msg => rw [hrest, errorBind] at hrs; cases hrs
            | ok results =>
              rw [hrest, okBind] at hrs
              rcases hrs with ⟨⟩
              have hfacts := shouldIgnoreE_ok_false hig
              rcases List.mem_append.mp hr with hsubm | htail
              · have hin := ihdir sub (by simpa [FSEntry.name] using hsub) r hsubm
                obtain ⟨dirs, fname, hpath, hdirs, hf1, hf2, hf3⟩ := hin
                refine ⟨n :: dirs, fname, ?_, ?_, hf1, hf2, hf3⟩
                · rw [hpath]
                  simp only [List.cons_append, List.foldl_cons]
                  rfl
                · intro s hs
                  rcases List.mem_cons.mp hs with rfl | hsmem
                  · refine ⟨by simpa using hfacts.1, ?_⟩
                    intro pat hp
                    exact (hfacts.2 pat hp).2.1
                  · exact hdirs s hsmem
              · exact ih1 results hrest r htail

/-- C5 (counterexample): a regular FILE named `node_modules` is checked
against the ignored-file set only, so with `node_modules` in the
ignored-directory set the walk still returns a record whose relative path's
(only) segment equals an ignored directory name. -/
theorem c5_ignored_segments_counterexample :
    getAllFiles "/r" cfgDirIgnore 0 "" true fsFileNamedNodeModules =
      .ok [{ path := "/r/node_modules", relativePath := "node_modules", size := 7 }] ∧
    "node_modules" ∈ cfgDirIgnore.ignore.directories := by
  refine ⟨?_, by simp [cfgDirIgnore]⟩
  simp [getAllFiles, getAllFilesLoop, shouldIgnoreE, somePatternsE, cfgDirIgnore,
    fsFileNamedNodeModules, joinRel, joinPath, FSEntry.name, FSEntry.isDirectory,
    okBind, errorBind]

/-- C5 (amended): in every successful walk, each returned record's
relative path decomposes into the traversed directory names followed by the
file's name, where no traversed directory name is an ignored directory name
or matches an ignore pattern, the file's name is not an ignored file name
and matches no pattern, and the full relative path matches no pattern. (The
final segment, being a file name, is checked against the ignored-FILE set
only — it may coincide with an ignored DIRECTORY name.) -/
theorem c5_ignored_segments_amended
    (rootDir : String) (config : Config) (ro : Bool)
    (entries : List FSEntry) (rs : List FileRecord)
    (h : getAllFiles rootDir config 0 "" ro entries = .ok rs) :
    ∀ r ∈ rs, RecordSegmentsOk config "" r :=
  getAllFiles_segments rootDir config 0 "" ro entries rs h

/-- C5 (witness). -/
theorem c5_ignored_segments_witness :
    RecordSegmentsOk cfgInv ""
      { path := "/r/src/app.js", relativePath := "src/app.js", size := 4 } :=
  c5_ignored_segments_amended "/r" cfgInv true fsInv
    [ { path := "/r/src/app.js", relativePath := "src/app.js", size := 4 },
      { path := "/r/readme.md", relativePath := "readme.md", size := 2 } ]
    (by simp [getAllFiles, getAllFilesLoop, shouldIgnoreE, somePatternsE, cfgInv,
      fsInv, joinRel, joinPath, FSEntry.name, FSEntry.isDirectory, okBind, errorBind,
      regexValid, regexValidAux, globMatch, globMatchAux])
    { path := "/r/src/app.js", relativePath := "src/app.js", size := 4 }
    (by simp)

/-! ### C6 — `maxDepth = 0` walks -/

/-- With a depth bound of zero and well-formed patterns, the walker's loop
computes exactly the root-only file scan: directory entries contribute
nothing, and their children (and even their readability) are never
consulted, because the depth guard in the recursive call precedes the
`readdir`. -/
theorem getAllFilesLoop_depth0
    (rootDir : String) (config : Config)
    (hv : ∀ pat ∈ config.ignore.patterns, regexValid pat = true)
    (h0 : config.maxDepth = 0) :
    ∀ entries, getAllFilesLoop rootDir config 0 "" entries =
      rootOnlyFiles rootDir config entries := by
  intro entries
  induction entries with
  | nil => simp [getAllFilesLoop, rootOnlyFiles]
  | cons e rest ih =>
    cases e with
    | dir n ok cs =>
      simp only [getAllFilesLoop, FSEntry.name, FSEntry.isDirectory,
        shouldIgnoreE_valid hv, okBind, rootOnlyFiles]
      split
      · exact ih
      · have h1 : 0 + 1 > config.maxDepth := by omega
        simp only [getAllFiles, if_pos h1, okBind]
        rw [ih]
        cases hro : rootOnlyFiles rootDir config rest <;> simp [okBind, errorBind]
    | file n stat =>
      cases stat with
      | none =>
        simp only [getAllFilesLoop, FSEntry.name, FSEntry.isDirectory,
          shouldIgnoreE_valid hv, okBind, rootOnlyFiles, joinRel_nil]
        split
        · exact ih
        · rfl
      | some size =>
        simp only [getAllFilesLoop, FSEntry.name, FSEntry.isDirectory,
          shouldIgnoreE_valid hv, okBind, rootOnlyFiles, joinRel_nil]
        split
        · exact ih
        · rw [ih]

/-- C6: with `maxDepth = 0` (and well-formed patterns, so that the ignore
check itself cannot throw), the walk returns exactly the non-ignored files
directly inside the root, never consulting any subdirectory's contents or
readability; and in general any call whose depth exceeds the bound
contributes `[]` without touching the filesystem. -/
theorem c6_depth_cutoff
    (rootDir : String) (config : Config) (entries : List FSEntry)
    (hv : ∀ pat ∈ config.ignore.patterns, regexValid pat = true)
    (h0 : config.maxDepth = 0) :
    (getAllFiles rootDir config 0 "" true entries =
      rootOnlyFiles rootDir config entries) ∧
    (∀ (p : String) (d : Nat) (rel : String) (ro : Bool) (l : List FSEntry),
      d > config.maxDepth → getAllFiles p config d rel ro l = .ok []) := by
  constructor
  · have hloop := getAllFilesLoop_depth0 rootDir config hv h0 entries
    rw [getAllFiles, if_neg (by omega), if_pos rfl]
    exact hloop
  · intro p d rel ro l hd
    rw [getAllFiles, if_pos hd]

/-! ### C7 — tree-rendering glyphs -/

/-- C7 (counterexample): `isLast` is computed from the position in the
sorted listing before the ignore filter, so when the listing's last entry
(`z.log`) is ignored, the entry actually rendered last (`a.txt`) still gets
the not-last connector `├── ` and no last-sibling glyph appears at all. -/
theorem c7_tree_glyphs_counterexample :
    generateTree "/r" cfgIgnoreZLog 0 "" "" true fsLastIgnored =
      .ok "├── a.txt\n" ∧
    ("├── a.txt\n".toList.contains '└') = false := by
  refine ⟨?_, by decide⟩
  simp [generateTree, generateTreeLoop, sortEntries, insertEntry, entryLE, nameLE,
    charsLE, shouldIgnoreE, somePatternsE, cfgIgnoreZLog, fsLastIgnored, joinRel,
    joinPath, FSEntry.name, FSEntry.isDirectory, okBind, errorBind, getDescription]

/-- C7 (amended): every rendered (non-ignored) entry contributes one line
whose connector is `└── ` exactly when the entry is last in the SORTED
LISTING (ignored entries included) and `├── ` otherwise, and a rendered
directory's children are rendered under the continuation prefix `    ` or
`│   ` according to that same position; consequently, when the listing's
last entry is ignored, no entry of that level receives the last-sibling
glyph. On the claim's example `{a/ (dir), b.txt (file)}` nothing is
ignored, so the lines are `├── a` then `└── b.txt`. -/
theorem c7_tree_glyphs_amended :
    (∀ (dirPath : String) (config : Config) (depth : Nat) (pre rel : String)
        (n : String) (st : Option Nat) (rest : List FSEntry),
      shouldIgnoreE n false (joinRel rel n) config = .ok false →
      generateTreeLoop dirPath config depth pre rel (FSEntry.file n st :: rest) =
        (do
          let r ← generateTreeLoop dirPath config depth pre rel rest
          Except.ok ((pre ++ (if rest.isEmpty then "└── " else "├── ") ++ n ++
            (if config.includeDescriptions then
              match getDescription (joinRel rel n) false config with
              | some desc => if desc = "" then "" else " # " ++ desc
              | none => ""
             else "") ++ "\n") ++ r))) ∧
    (∀ (dirPath : String) (config : Config) (depth : Nat) (pre rel : String)
        (n : String) (ok : Bool) (cs rest : List FSEntry),
      shouldIgnoreE n true (joinRel rel n) config = .ok false →
      generateTreeLoop dirPath config depth pre rel (FSEntry.dir n ok cs :: rest) =
        (do
          let sub ← generateTree (joinPath dirPath n) config (depth + 1)
            (pre ++ (if rest.isEmpty then "    " else "│   ")) (joinRel rel n) ok cs
          let r ← generateTreeLoop dirPath config depth pre rel rest
          Except.ok ((pre ++ (if rest.isEmpty then "└── " else "├── ") ++ n ++
            (if config.includeDescriptions then
              match getDescription (joinRel rel n) true config with
              | some desc => if desc = "" then "" else " # " ++ desc
              | none => ""
             else "") ++ "\n") ++ sub ++ r))) ∧
    generateTree "/r" cfgPlain 0 "" "" true fsTreeExample =
      .ok ("├── a\n" ++ "└── b.txt\n") := by
  refine ⟨?_, ?_, ?_⟩
  · intro dirPath config depth pre rel n st rest hig
    simp only [generateTreeLoop, FSEntry.name, FSEntry.isDirectory]
    rw [hig, okBind, if_neg (by simp)]
  · intro dirPath config depth pre rel n ok cs rest hig
    simp only [generateTreeLoop, FSEntry.name, FSEntry.isDirectory]
    rw [hig, okBind, if_neg (by simp)]
  · simp [generateTree, generateTreeLoop, sortEntries, insertEntry, entryLE, nameLE,
      charsLE, shouldIgnoreE, somePatternsE, cfgPlain, fsTreeExample, joinRel,
      joinPath, FSEntry.name, FSEntry.isDirectory, okBind, errorBind, getDescription]

/-- C7 (witness). -/
theorem c7_tree_glyphs_witness :
    generateTreeLoop "/r" cfgPlain 0 "" "" [FSEntry.file "only.txt" (some 1)] =
      (do
        let r ← generateTreeLoop "/r" cfgPlain 0 "" "" []
        Except.ok (("" ++ (if ([] : List FSEntry).isEmpty then "└── " else "├── ") ++
          "only.txt" ++
          (if cfgPlain.includeDescriptions then
            match getDescription (joinRel "" "only.txt") false cfgPlain with
            | some desc => if desc = "" then "" else " # " ++ desc
            | none => ""
           else "") ++ "\n") ++ r)) :=
  c7_tree_glyphs_amended.1 "/r" cfgPlain 0 "" "" "only.txt" (some 1) []
    (by simp [shouldIgnoreE, somePatternsE, cfgPlain])

/-- C6 (witness): at depth bound zero, only `a.txt` survives (`b.log`
matches the pattern, `.DS_Store` is a literal ignore), and the unreadable
subdirectory `sub` is irrelevant because it is never descended into. -/
theorem c6_depth_cutoff_witness :
    (getAllFiles "/r" cfgDepth0 0 "" true fsDepth0 =
        rootOnlyFiles "/r" cfgDepth0 fsDepth0) ∧
    getAllFiles "/r" cfgDepth0 3 "x" false [FSEntry.file "y" none] = .ok [] :=
  ⟨(c6_depth_cutoff "/r" cfgDepth0 fsDepth0
      (by simp [cfgDepth0, regexValid, regexValidAux]) (by simp [cfgDepth0])).1,
    (c6_depth_cutoff "/r" cfgDepth0 fsDepth0
      (by simp [cfgDepth0, regexValid, regexValidAux]) (by simp [cfgDepth0])).2
      "/r" 3 "x" false [FSEntry.file "y" none] (by simp [cfgDepth0])⟩

/-! ### C8 — malformed description keys -/

/-- Scanning the description table skips the keys whose regex does not
compile: the scan over the table equals the scan over the table with the
malformed keys removed. -/
theorem findFileDesc_filter (l : List (String × String)) (rel : String) :
    findFileDesc (l.filter fun kv => regexValid kv.fst) rel = findFileDesc l rel := by
  induction l with
  | nil => rfl
  | cons kv rest ih =>
    obtain ⟨pat, dsc⟩ := kv
    by_cases hv : regexValid pat = true
    · simp [List.filter_cons, hv, findFileDesc, ih]
    · simp [List.filter_cons, hv, findFileDesc, ih]

theorem getDescription_filterValid (rel : String) (isDir : Bool) (config : Config) :
    getDescription rel isDir (filterValidDescs config) =
      getDescription rel isDir config := by
  cases isDir with
  | true => rfl
  | false =>
    show findFileDesc (config.filePatternDescriptions.filter fun kv => regexValid kv.fst) rel =
      findFileDesc config.filePatternDescriptions rel
    exact findFileDesc_filter _ rel

theorem shouldIgnoreE_filterValid (n : String) (b : Bool) (r : String)
    (config : Config) :
    shouldIgnoreE n b r (filterValidDescs config) = shouldIgnoreE n b r config := rfl

theorem filterValidDescs_maxDepth (config : Config) :
    (filterValidDescs config).maxDepth = config.maxDepth := rfl

theorem filterValidDescs_includeDescriptions (config : Config) :
    (filterValidDescs config).includeDescriptions = config.includeDescriptions := rfl

/-- Removing the malformed description keys does not change the rendered
tree: the renderer behaves as if those keys were absent. -/
theorem generateTree_filterValid
    (dirPath : String) (config : Config) (depth : Nat) (pre rel : String)
    (ro : Bool) (entries : List FSEntry) :
    generateTree dirPath (filterValidDescs config) depth pre rel ro entries =
      generateTree dirPath config depth pre rel ro entries := by
  refine generateTree.induct
    (fun dirPath config depth pre rel ro entries =>
      generateTree dirPath (filterValidDescs config) depth pre rel ro entries =
        generateTree dirPath config depth pre rel ro entries)
    (fun dirPath config depth pre rel l =>
      generateTreeLoop dirPath (filterValidDescs config) depth pre rel l =
        generateTreeLoop dirPath config depth pre rel l)
    ?_ ?_ ?_ ?_ ?_ dirPath config depth pre rel ro entries
  · intro dirPath config depth pre rel ro entries hd
    rw [generateTree, generateTree]
    simp only [filterValidDescs_maxDepth]
    rw [if_pos hd, if_pos hd]
  · intro dirPath config depth pre rel entries hd ih
    rw [generateTree, generateTree]
    simp only [filterValidDescs_maxDepth]
    rw [if_neg hd, if_neg hd]
    simpa using ih
  · intro dirPath config depth pre rel ro entries hd hro
    rw [generateTree, generateTree]
    simp only [filterValidDescs_maxDepth]
    rw [if_neg hd, if_neg hd, if_neg hro, if_neg hro]
  · intro dirPath config depth pre rel
    simp only [generateTreeLoop]
  · intro dirPath config depth pre rel entry rest isLast entryRelativePath ih1 ihm
    cases entry with
    | file n st =>
      simp only [generateTreeLoop, FSEntry.name, FSEntry.isDirectory,
        shouldIgnoreE_filterValid, getDescription_filterValid,
        filterValidDescs_includeDescriptions]
      cases hig : shouldIgnoreE n false (joinRel rel n) config with
      | error msg => simp [errorBind]
      | ok b =>
        simp only [okBind]
        cases b with
        | true => simpa using ih1
        | false =>
          simp only [Bool.false_eq_true, if_false]
          rw [ih1]
    | dir n ok cs =>
      obtain ⟨ihdir, _⟩ := ihm
      simp only [generateTreeLoop, FSEntry.name, FSEntry.isDirectory,
        shouldIgnoreE_filterValid, getDescription_filterValid,
        filterValidDescs_includeDescriptions]
      cases hig : shouldIgnoreE n true (joinRel rel n) config with
      | error msg => simp [errorBind]
      | ok b =>
        simp only [okBind]
        cases b with
        | true => simpa using ih1
        | false =>
          simp only [Bool.false_eq_true, if_false]
          simp only [dite_eq_ite, show isLast = rest.isEmpty from rfl,
            show entryRelativePath = joinRel rel n from rfl] at ihdir
          rw [ih1, ihdir]

/-- C8: a malformed description key is skipped without failing the
rendering — the tree renders exactly as it would with that key removed —
and among the remaining keys, the first whose regex matches wins for files,
while directories take the exact relative-path entry of the directory
table. -/
theorem c8_malformed_desc_keys
    (pat dsc : String) (rest : List (String × String)) (rel : String)
    (hv : regexValid pat = true) (hm : regexSearch pat rel = true)
    (v drel : String) (drest : List (String × String)) (dconfig : Config)
    (hdd : dconfig.directoryDescriptions = (drel, v) :: drest) (hne : v ≠ "") :
    (∀ (dirPath : String) (config : Config) (depth : Nat) (pre rel' : String)
        (ro : Bool) (entries : List FSEntry),
      generateTree dirPath (filterValidDescs config) depth pre rel' ro entries =
        generateTree dirPath config depth pre rel' ro entries) ∧
    findFileDesc ((pat, dsc) :: rest) rel = some dsc ∧
    getDescription drel true dconfig = some v := by
  refine ⟨generateTree_filterValid, ?_, ?_⟩
  · simp [findFileDesc, hv, hm]
  · simp [getDescription, lookupDirDesc, hdd, hne]

/-- C8 (witness). -/
theorem c8_malformed_desc_keys_witness :
    (∀ (dirPath : String) (config : Config) (depth : Nat) (pre rel' : String)
        (ro : Bool) (entries : List FSEntry),
      generateTree dirPath (filterValidDescs config) depth pre rel' ro entries =
        generateTree dirPath config depth pre rel' ro entries) ∧
    findFileDesc [("b.txt", "the b file")] "b.txt" = some "the b file" ∧
    getDescription "a" true cfgDescs = some "the a directory" :=
  c8_malformed_desc_keys "b.txt" "the b file" [] "b.txt"
    (by simp [regexValid, regexValidAux])
    (by simp [regexSearch, regexSearchAux, charsPrefix])
    "the a directory" "a" [] cfgDescs (by simp [cfgDescs]) (by simp)

/-! ### C9 — path and relativePath denote the same entry -/

theorem append_ne_empty_left {a : String} (b : String) (h : a ≠ "") :
    a ++ b ≠ "" := by
  intro hab
  apply h
  have h2 := congrArg String.data hab
  rw [String.data_append] at h2
  exact String.ext (List.append_eq_nil.mp h2).1

/-- Every record of a successful walk over a well-formed tree has its
absolute path equal to the walk root joined with its relative path. The
induction carries the relation between the current directory path and the
current relative path that `getAllFiles` maintains through its parallel
`path.join` calls. -/
theorem getAllFiles_path_aux
    (p : String) (config : Config) (d : Nat) (rel : String)
    (ro : Bool) (entries : List FSEntry) :
    ∀ root, ((rel = "" ∧ p = root) ∨ (rel ≠ "" ∧ p = root ++ "/" ++ rel)) →
      entriesNamesOk entries = true →
      ∀ rs, getAllFiles p config d rel ro entries = .ok rs →
        ∀ r ∈ rs, r.path = root ++ "/" ++ r.relativePath := by
  refine getAllFiles.induct
    (fun p config d rel ro entries =>
      ∀ root, ((rel = "" ∧ p = root) ∨ (rel ≠ "" ∧ p = root ++ "/" ++ rel)) →
        entriesNamesOk entries = true →
        ∀ rs, getAllFiles p config d rel ro entries = .ok rs →
          ∀ r ∈ rs, r.path = root ++ "/" ++ r.relativePath)
    (fun p config d rel l =>
      ∀ root, ((rel = "" ∧ p = root) ∨ (rel ≠ "" ∧ p = root ++ "/" ++ rel)) →
        entriesNamesOk l = true →
        ∀ rs, getAllFilesLoop p config d rel l = .ok rs →
          ∀ r ∈ rs, r.path = root ++ "/" ++ r.relativePath)
    ?_ ?_ ?_ ?_ ?_ p config d rel ro entries
  · intro p config d rel ro entries hd root hrel hnames rs hrs r hr
    simp only [getAllFiles, if_pos hd, Except.ok.injEq] at hrs
    subst hrs
    cases hr
  · intro p config d rel entries hd ih root hrel hnames rs hrs r hr
    simp only [getAllFiles, if_neg hd, if_pos rfl] at hrs
    exact ih root hrel hnames rs hrs r hr
  · intro p config d rel ro entries hd hro root hrel hnames rs hrs r hr
    rw [getAllFiles, if_neg hd, if_neg hro] at hrs
    cases hrs
  · intro p config d rel root hrel hnames rs hrs r hr
    simp only [getAllFilesLoop, Except.ok.injEq] at hrs
    subst hrs
    cases hr
  · intro p config d rel entry rest entryRelativePath ih1 ihm root hrel hnames rs hrs r hr
    simp only [entriesNamesOk, Bool.and_eq_true] at hnames
    cases entry with
    | file n stat =>
      have hn : n ≠ "" := by
        have := hnames.1
        simp only [entryNamesOk, bne_iff_ne, ne_eq] at this
        exact this
      cases stat with
      | none =>
        simp only [getAllFilesLoop, FSEntry.name, FSEntry.isDirectory] at hrs
        cases hig : shouldIgnoreE n false (joinRel rel n) config with
        | error msg => rw [hig, errorBind] at hrs; cases hrs
        | ok b =>
          rw [hig, okBind] at hrs
          cases b with
          | true => rw [if_pos rfl] at hrs; exact ih1 root hrel hnames.2 rs hrs r hr
          | false => rw [if_neg (by simp)] at hrs; cases hrs
      | some size =>
        simp only [getAllFilesLoop, FSEntry.name, FSEntry.isDirectory] at hrs
        cases hig : shouldIgnoreE n false (joinRel rel n) config with
        | error msg => rw [hig, errorBind] at hrs; cases hrs
        | ok b =>
          rw [hig, okBind] at hrs
          cases b with
          | true => rw [if_pos rfl] at hrs; exact ih1 root hrel hnames.2 rs hrs r hr
          | false =>
            rw [if_neg (by simp)] at hrs
            cases hrest : getAllFilesLoop p config d rel rest with
            | error msg => rw [hrest, errorBind] at hrs; cases hrs
            | ok results =>
              rw [hrest, okBind] at hrs
              rcases hrs with ⟨⟩
              rcases List.mem_cons.mp hr with hhead | htail
              · subst hhead
                rcases hrel with ⟨hrel0, hp⟩ | ⟨hrel1, hp⟩
                · subst hp
                  simp [joinPath, joinRel, hrel0]
                · subst hp
                  simp only [joinPath, joinRel, if_neg hrel1]
                  simp [String.append_assoc]
              · exact ih1 root hrel hnames.2 results hrest r htail
    | dir n ok children =>
      obtain ⟨ihdir, _⟩ := ihm
      have hn : n ≠ "" := by
        have := hnames.1
        simp only [entryNamesOk, Bool.and_eq_true, bne_iff_ne, ne_eq] at this
        exact this.1
      have hcs : entriesNamesOk children = true := by
        have := hnames.1
        simp only [entryNamesOk, Bool.and_eq_true] at this
        exact this.2
      simp only [getAllFilesLoop, FSEntry.name, FSEntry.isDirectory] at hrs
      cases hig : shouldIgnoreE n true (joinRel rel n) config with
      | error msg => rw [hig, errorBind] at hrs; cases hrs
      | ok b =>
        rw [hig, okBind] at hrs
        cases b with
        | true => rw [if_pos rfl] at hrs; exact ih1 root hrel hnames.2 rs hrs r hr
        | false =>
          rw [if_neg (by simp)] at hrs
          cases hsub : getAllFiles (joinPath p n) config (d + 1)
              (joinRel rel n) ok children with
          | error msg => rw [hsub, errorBind] at hrs; cases hrs
          | ok sub =>
            rw [hsub, okBind] at hrs
            cases hrest : getAllFilesLoop p config d rel rest with
            | error msg => rw [hrest, errorBind] at hrs; cases hrs
            | ok results =>
              rw [hrest, okBind] at hrs
              rcases hrs with ⟨⟩
              rcases List.mem_append.mp hr with hsubm | htail
              · have hrel' : (joinRel rel n = "" ∧ joinPath p n = root) ∨
                    (joinRel rel n ≠ "" ∧ joinPath p n = root ++ "/" ++ joinRel rel n) := by
                  rcases hrel with ⟨hrel0, hp⟩ | ⟨hrel1, hp⟩
                  · subst hp
                    refine Or.inr ⟨?_, ?_⟩
                    · rw [joinRel, if_pos hrel0]
                      exact hn
                    · rw [joinRel, if_pos hrel0, joinPath]
                  · subst hp
                    refine Or.inr ⟨?_, ?_⟩
                    · rw [joinRel, if_neg hrel1]
                      exact append_ne_empty_left _ (append_ne_empty_left _ hrel1)
                    · rw [joinRel, if_neg hrel1, joinPath]
                      simp [String.append_assoc]
                exact ihdir root hrel' hcs sub (by simpa [FSEntry.name] using hsub) r hsubm
              · exact ih1 root hrel hnames.2 results hrest r htail

/-- C9: for every successful walk (over a tree with nonempty entry names,
as real directory listings have), each returned record's `path` is the walk
root joined with its `relativePath` — the two fields denote the same
filesystem entry. -/
theorem c9_path_correspondence
    (rootDir : String) (config : Config) (ro : Bool)
    (entries : List FSEntry) (rs : List FileRecord)
    (hnames : entriesNamesOk entries = true)
    (h : getAllFiles rootDir config 0 "" ro entries = .ok rs) :
    ∀ r ∈ rs, r.path = rootDir ++ "/" ++ r.relativePath :=
  getAllFiles_path_aux rootDir config 0 "" ro entries rootDir
    (Or.inl ⟨rfl, rfl⟩) hnames rs h

/-- C9 (witness). -/
theorem c9_path_correspondence_witness :
    FileRecord.path
        { path := "/r/src/lib/utils.js", relativePath := "src/lib/utils.js", size := 9 } =
      "/r" ++ "/" ++ FileRecord.relativePath
        { path := "/r/src/lib/utils.js", relativePath := "src/lib/utils.js", size := 9 } :=
  c9_path_correspondence "/r" cfgPlain true fsNested
    [ { path := "/r/src/lib/utils.js", relativePath := "src/lib/utils.js", size := 9 },
      { path := "/r/src/index.js", relativePath := "src/index.js", size := 8 },
      { path := "/r/package.json", relativePath := "package.json", size := 7 } ]
    (by simp [fsNested, entriesNamesOk, entryNamesOk])
    (by simp [getAllFiles, getAllFilesLoop, shouldIgnoreE, somePatternsE, cfgPlain,
      fsNested, joinRel, joinPath, FSEntry.name, FSEntry.isDirectory, okBind, errorBind])
    { path := "/r/src/lib/utils.js", relativePath := "src/lib/utils.js", size := 9 }
    (by simp)

/-! ### C10 — anchored pattern matching -/

/-- A pattern without `*` matches, under the compiled `^...$` regex, exactly
the string equal to it. -/
theorem globMatchAux_no_star :
    ∀ (ps : List Char), '*' ∉ ps → ∀ s, globMatchAux ps s = (ps == s) := by
  intro ps
  induction ps with
  | nil =>
    intro _ s
    cases s <;> simp [globMatchAux]
  | cons p ps ih =>
    intro hstar s
    have hp : ¬ (p = '*') := fun h => hstar (by simp [h])
    have hps : '*' ∉ ps := fun h => hstar (List.mem_cons_of_mem _ h)
    cases s with
    | nil => simp [globMatchAux, hp]
    | cons c s' =>
      simp only [globMatchAux, if_neg hp]
      rw [ih hps s']
      show (p == c && (ps == s')) = ((p :: ps) == (c :: s'))
      rfl

theorem globMatch_no_star (pat s : String) (h : '*' ∉ pat.toList)
    (hm : globMatch pat s = true) : pat = s := by
  rw [globMatch, globMatchAux_no_star _ h] at hm
  exact String.ext (by simpa [String.toList] using beq_iff_eq.mp hm)

/-- C10: ignore-pattern matching is anchored — a star-free pattern ignores
an entry only by exact equality with the bare name or the relative path; in
particular the pattern `log` does not ignore `app.log`, while `*.log` does
match `app.log` (star = any substring) and `a.b` does not match `axb`
(dot is literal). -/
theorem c10_anchored_patterns :
    (∀ (pat name rel : String), '*' ∉ pat.toList →
      (globMatch pat name || globMatch pat rel) = true → pat = name ∨ pat = rel) ∧
    shouldIgnore "app.log" false "app.log" cfgPatternLog = false ∧
    globMatch "*.log" "app.log" = true ∧
    globMatch "a.b" "axb" = false := by
  refine ⟨?_, ?_, ?_, ?_⟩
  · intro pat name rel h hm
    rcases Bool.or_eq_true_iff.mp hm with h1 | h2
    · exact Or.inl (globMatch_no_star _ _ h h1)
    · exact Or.inr (globMatch_no_star _ _ h h2)
  · simp [shouldIgnore, cfgPatternLog, globMatch, globMatchAux]
  · simp [globMatch, globMatchAux]
  · simp [globMatch, globMatchAux]

/-- C10 (witness). -/
theorem c10_anchored_patterns_witness :
    ("log" : String) = "log" ∨ ("log" : String) = "app" :=
  c10_anchored_patterns.1 "log" "log" "app" (by decide)
    (by simp [globMatch, globMatchAux])

end ProjectMapper
